import Mathlib

/-!
Verification development for `secret_santa.py` (trflynn89/secret-santa).

The program builds a list of `SecretSanta` participants from a YAML
configuration, assigns each participant a random gift recipient (their
"santee") subject to per-participant exclusion lists, retrying the whole
greedy assignment pass up to 100 times, and finally emails the results.

This file shallowly embeds the assignment core:
  * `SecretSanta` mirrors the Python class (`name`, `email`,
    `invalid_matches`, `santee`).  The Python `santee` field holds a
    reference to a deep-copied pool object; the engine and the rest of the
    program only ever read that object's `name`, so the embedding stores the
    chosen recipient's name.
  * `SecretSanta.assign_santee` mirrors the method of the same name.  The
    ambient `random.choice` is modelled by an explicit random source
    `rs : Nat → Nat` threaded by the callers together with a counter `k`
    of how many random draws have been consumed; a draw over a candidate
    list of length `len` picks index `rs k % len`.  `random.choice` is only
    invoked when the candidate list is nonempty, so `k` advances only then.
  * `assign_santees_once` mirrors one call of the undecorated
    `assign_santees`: it deep-copies the participant list into the candidate
    pool (a value copy here), then processes the participants in order,
    mutating each participant's `santee` field.  On a dead end it raises
    `SecretSantaException` naming the stuck participant; the participants
    already processed keep their new `santee` values, exactly as the Python
    objects do.
  * `assign_santees_loop` / `assign_santees` mirror the
    `@repeat_if_failed(tries=100, exceptions=(SecretSantaException,))`
    decorator applied to `assign_santees`: up to 100 calls, swallowing
    `SecretSantaException` and re-raising the last one when tries run out
    (`raise ex` raises `NameError` if no call was ever made).  `EngineResult`
    records the final participant state, the number of calls made, the next
    random counter, the list of per-attempt exceptions, and the outcome.
  * `repeat_if_failed` is the generic decorator of lines 27-51, modelled
    over an arbitrary wrapped function whose (possibly differing) behaviour
    on its i-th call is given by `f i`.
  * `create_santas` (the construction loop, lines 277-285) builds the
    participants from parsed `name, email` pairs and the raw `DONT_PAIR`
    strings, where `pair.split(',')` / `str.strip()` are embedded as
    `py_split` / `py_strip`.
-/

/-- Exceptions the embedded fragment can raise: `SecretSantaException(msg)`
from the module, and Python's `NameError` (raised by `raise ex` in
`repeat_if_failed` when `ex` was never bound). -/
inductive PyException where
  | secretSantaException (msg : String)
  | nameError
deriving DecidableEq, Repr

/-- Caller-visible outcome of a run of the decorated engine: normal return,
or an uncaught exception. -/
inductive Outcome where
  | ok
  | raised (e : PyException)
deriving DecidableEq, Repr

/-- The `SecretSanta` class: name, email, exclusion list, and the assigned
recipient's name (`None` until assigned). -/
structure SecretSanta where
  name : String
  email : String
  invalid_matches : List String
  santee : Option String
deriving DecidableEq, Repr

/-- `SecretSanta.__init__`: stores name and email, appends the Santa's own
name to the supplied exclusion list, and leaves `santee` unset. -/
def SecretSanta.init (name email : String) (invalid_matches : List String) : SecretSanta :=
  { name := name, email := email, invalid_matches := invalid_matches ++ [name], santee := none }

/-- Pair each list element with its position, starting at `i`.  Used to
model Python's identity-based `list.remove`: the engine removes the chosen
candidate at its exact position in the pool. -/
def enum_from {α : Type} (i : Nat) : List α → List (Nat × α)
  | [] => []
  | a :: rest => (i, a) :: enum_from (i + 1) rest

/-- The candidate computation of `SecretSanta.assign_santee`
(`[s for s in santees if s.name not in self.invalid_matches]`), with each
candidate paired with its position in the pool. -/
def candidate_list (self : SecretSanta) (santees : List SecretSanta) : List (Nat × SecretSanta) :=
  (enum_from 0 santees).filter (fun c => decide (¬ c.2.name ∈ self.invalid_matches))

/-- `SecretSanta.assign_santee`: filter the pool by the exclusion list, pick
a random candidate (`self.santee := random.choice(candidates)`) or set
`santee` to `None` when no candidate remains.  Returns the updated Santa and
the pool position of the chosen candidate (`none` if there was none). -/
def SecretSanta.assign_santee (self : SecretSanta) (santees : List SecretSanta) (r : Nat) :
    SecretSanta × Option Nat :=
  match candidate_list self santees with
  | [] => ({ self with santee := none }, none)
  | c :: cs =>
    let chosen := (c :: cs).get ⟨r % (c :: cs).length, Nat.mod_lt r (Nat.succ_pos cs.length)⟩
    ({ self with santee := some chosen.2.name }, some chosen.1)

/-- The loop body of `assign_santees`: process the remaining participants in
order against the current pool `santees`.  Returns the updated participants,
the final pool, the next random counter, and the exception raised (if any).
On a dead end the stuck participant's `santee` is `None`, participants after
it are untouched, and participants before it keep their new assignments. -/
def assign_santees_go (rs : Nat → Nat) :
    Nat → List SecretSanta → List SecretSanta →
      List SecretSanta × List SecretSanta × Nat × Option PyException
  | k, santees, [] => ([], santees, k, none)
  | k, santees, santa :: rest =>
    match santa.assign_santee santees (rs k) with
    | (santa', none) =>
      (santa' :: rest, santees, k,
        some (.secretSantaException ("Could not find santee for " ++ santa.name)))
    | (santa', some i) =>
      let t := assign_santees_go rs (k + 1) (santees.eraseIdx i) rest
      (santa' :: t.1, t.2.1, t.2.2.1, t.2.2.2)

/-- One call of the undecorated `assign_santees`: deep-copy the participants
into the pool (`santees = copy.deepcopy(santas)`) and run the loop.  Returns
the participants' state after the call, the next random counter, and the
exception raised (if any). -/
def assign_santees_once (rs : Nat → Nat) (k : Nat) (santas : List SecretSanta) :
    List SecretSanta × Nat × Option PyException :=
  let t := assign_santees_go rs k santas santas
  (t.1, t.2.2.1, t.2.2.2)

/-- Result of running the decorated engine: final participant state, number
of calls made to the wrapped function, next random counter, the per-attempt
exceptions in order, and the caller-visible outcome. -/
structure EngineResult where
  santas : List SecretSanta
  attempts : Nat
  k : Nat
  trace : List PyException
  outcome : Outcome
deriving DecidableEq, Repr

/-- The retry loop of `repeat_if_failed` as applied to `assign_santees`:
`for _ in range(tries): try: return func(...) except SecretSantaException as
ex: pass` followed by `raise ex`.  Each attempt starts from the participant
state the previous attempt left behind. -/
def assign_santees_loop (rs : Nat → Nat) :
    Nat → Nat → List SecretSanta → Option PyException → EngineResult
  | 0, k, santas, last =>
    { santas := santas, attempts := 0, k := k, trace := [],
      outcome := .raised (match last with | some e => e | none => .nameError) }
  | n + 1, k, santas, _last =>
    match assign_santees_once rs k santas with
    | (santas', k', none) =>
      { santas := santas', attempts := 1, k := k', trace := [], outcome := .ok }
    | (santas', k', some e) =>
      let r := assign_santees_loop rs n k' santas' (some e)
      { r with attempts := r.attempts + 1, trace := e :: r.trace }

/-- The decorated `assign_santees` exactly as the program calls it:
`@repeat_if_failed(tries=100, exceptions=(SecretSantaException,))`, with the
random counter starting at 0 (a freshly seeded random source). -/
def assign_santees (rs : Nat → Nat) (santas : List SecretSanta) : EngineResult :=
  assign_santees_loop rs 100 0 santas none

/-- Result of the generic `repeat_if_failed` wrapper: the wrapped function's
return value, an uncaught or re-raised exception, or Python's `NameError`
from `raise ex` when no call was ever made (`tries = 0`). -/
inductive RetryResult (E β : Type) where
  | ok (value : β)
  | raised (e : E)
  | unboundLocal
deriving DecidableEq, Repr

/-- Behaviour of one call of a wrapped (possibly impure) function: a normal
return or a raised exception. -/
inductive CallResult (E β : Type) where
  | ok (value : β)
  | exn (e : E)
deriving DecidableEq, Repr

/-- The loop of the generic `repeat_if_failed(tries, exceptions)` decorator,
lines 27-51.  `f i` is the behaviour of the wrapped function on its i-th
call; `acceptable` models membership of an exception's class in the
`exceptions` tuple.  An acceptable exception is swallowed and the loop
continues; any other exception propagates at once.  Also counts the calls
made. -/
def repeat_if_failed_go {E β : Type} (acceptable : E → Bool) (f : Nat → CallResult E β) :
    Nat → Nat → Option E → RetryResult E β × Nat
  | 0, _i, last =>
    ((match last with | some e => .raised e | none => .unboundLocal), 0)
  | n + 1, i, _last =>
    match f i with
    | .ok b => (.ok b, 1)
    | .exn e =>
      if acceptable e then
        let t := repeat_if_failed_go acceptable f n (i + 1) (some e)
        (t.1, t.2 + 1)
      else (.raised e, 1)

/-- `repeat_if_failed(tries, exceptions)` applied to a wrapped function,
returning the caller-visible result and the number of calls made. -/
def repeat_if_failed {E β : Type} (tries : Nat) (acceptable : E → Bool)
    (f : Nat → CallResult E β) : RetryResult E β × Nat :=
  repeat_if_failed_go acceptable f tries 0 none

/-- Split a character list at every occurrence of `sep`, like Python's
`str.split(sep)` for a one-character separator: `n` separators yield `n + 1`
(possibly empty) pieces. -/
def py_split_aux (sep : Char) : List Char → List Char → List (List Char)
  | cur, [] => [cur.reverse]
  | cur, c :: cs =>
    if c = sep then cur.reverse :: py_split_aux sep [] cs
    else py_split_aux sep (c :: cur) cs

/-- Python's `s.split(sep)` for a one-character separator. -/
def py_split (s : String) (sep : Char) : List String :=
  (py_split_aux sep [] s.toList).map (fun cs => String.mk cs)

/-- Python's `s.strip()`: drop whitespace from both ends. -/
def py_strip (s : String) : String :=
  String.mk (((s.toList.dropWhile Char.isWhitespace).reverse.dropWhile Char.isWhitespace).reverse)

/-- The per-pair name parsing of `create_santas`:
`[n.strip() for n in pair.split(',')]`. -/
def parse_pair_names (pair : String) : List String :=
  (py_split pair ',').map py_strip

/-- The exclusion accumulation of `create_santas` for one participant name:
for each `DONT_PAIR` entry, `invalid_matches.extend([p for p in names if
name in names])` appends the whole group whenever `name` occurs in it. -/
def invalid_matches_for (name : String) (dont_pair : List String) : List String :=
  (dont_pair.map (fun pair =>
    let names := parse_pair_names pair
    if name ∈ names then names else [])).flatten

/-- The construction loop of `create_santas` (lines 277-285): one
`SecretSanta` per parsed `(name, email)` pair, with the exclusions resolved
from `DONT_PAIR`.  (The subsequent `assign_santees(santas)` call is modelled
separately by `assign_santees`.) -/
def create_santas (participants : List (String × String)) (dont_pair : List String) :
    List SecretSanta :=
  participants.map (fun p => SecretSanta.init p.1 p.2 (invalid_matches_for p.1 dont_pair))

/-- A participant list is feasible when some permutation of the names can
serve as the recipients: position by position, the recipient's name avoids
the giver's exclusion list. -/
def Feasible (santas : List SecretSanta) : Prop :=
  ∃ perm ∈ (santas.map SecretSanta.name).permutations',
    ∀ p ∈ santas.zip perm, ¬ p.2 ∈ p.1.invalid_matches

/-- `Feasible` is decidable: the permutation search space is finite. -/
instance instDecidableFeasible (santas : List SecretSanta) : Decidable (Feasible santas) :=
  decidable_of_iff
    (∃ perm ∈ (santas.map SecretSanta.name).permutations',
      ∀ p ∈ santas.zip perm, ¬ p.2 ∈ p.1.invalid_matches) Iff.rfl

/-- Two Santas agree on everything except possibly the `santee` field. -/
def same_core (s t : SecretSanta) : Prop :=
  t.name = s.name ∧ t.email = s.email ∧ t.invalid_matches = s.invalid_matches

theorem same_core_refl (s : SecretSanta) : same_core s s :=
  ⟨rfl, rfl, rfl⟩

theorem same_core_trans {s t u : SecretSanta} (h : same_core s t) (h' : same_core t u) :
    same_core s u :=
  ⟨h'.1.trans h.1, h'.2.1.trans h.2.1, h'.2.2.trans h.2.2⟩

theorem forall₂_same_core_refl (l : List SecretSanta) : List.Forall₂ same_core l l := by
  induction l with
  | nil => exact List.Forall₂.nil
  | cons a l ih => exact List.Forall₂.cons (same_core_refl a) ih

theorem forall₂_same_core_trans {l₁ l₂ l₃ : List SecretSanta}
    (h : List.Forall₂ same_core l₁ l₂) (h' : List.Forall₂ same_core l₂ l₃) :
    List.Forall₂ same_core l₁ l₃ := by
  induction h generalizing l₃ with
  | nil => cases h'; exact List.Forall₂.nil
  | cons hab hl ih =>
    cases h' with
    | cons hbc hl' => exact List.Forall₂.cons (same_core_trans hab hbc) (ih hl')

theorem mem_enum_from {α : Type} {j : Nat} {a : α} :
    ∀ (l : List α) (i : Nat), (j, a) ∈ enum_from i l → i ≤ j ∧ l[j - i]? = some a := by
  intro l
  induction l with
  | nil => intro i h; simp [enum_from] at h
  | cons b t ih =>
    intro i h
    simp only [enum_from, List.mem_cons] at h
    rcases h with h | h
    · obtain ⟨h1, h2⟩ := Prod.mk.injEq .. ▸ h
      cases h
      simp
    · obtain ⟨hle, hget⟩ := ih (i + 1) h
      refine ⟨by omega, ?_⟩
      have hj : j - i = (j - (i + 1)) + 1 := by omega
      rw [hj]
      simpa using hget

/-- Removing the element at a valid index is, up to permutation, removing one
occurrence of that element. -/
theorem perm_cons_eraseIdx {α : Type} {a : α} :
    ∀ (l : List α) (j : Nat), l[j]? = some a → l.Perm (a :: l.eraseIdx j) := by
  intro l
  induction l with
  | nil => intro j h; simp at h
  | cons b t ih =>
    intro j h
    cases j with
    | zero =>
      simp at h
      subst h
      simp [List.eraseIdx]
    | succ j =>
      simp at h
      have hp := ih j h
      have h1 : (b :: t).Perm (b :: a :: t.eraseIdx j) := hp.cons b
      have h2 : (b :: a :: t.eraseIdx j).Perm (a :: b :: t.eraseIdx j) := List.Perm.swap a b _
      simpa [List.eraseIdx] using h1.trans h2

theorem mem_candidate_list {self : SecretSanta} {pool : List SecretSanta} {i : Nat}
    {c : SecretSanta} (h : (i, c) ∈ candidate_list self pool) :
    pool[i]? = some c ∧ ¬ c.name ∈ self.invalid_matches := by
  unfold candidate_list at h
  obtain ⟨hmem, hfilt⟩ := List.mem_filter.mp h
  obtain ⟨-, hget⟩ := mem_enum_from pool 0 hmem
  simpa using ⟨hget, of_decide_eq_true hfilt⟩

/-- Characterisation of `assign_santee` when it fails: there was no
candidate, and only `santee` is cleared. -/
theorem assign_santee_none {self : SecretSanta} {pool : List SecretSanta} {r : Nat}
    {self' : SecretSanta} (h : self.assign_santee pool r = (self', none)) :
    candidate_list self pool = [] ∧ self' = { self with santee := none } := by
  unfold SecretSanta.assign_santee at h
  rcases hc : candidate_list self pool with _ | ⟨c, cs⟩
  · rw [hc] at h
    exact ⟨rfl, (Prod.mk.injEq .. ▸ h).1.symm⟩
  · rw [hc] at h
    simp at h

/-- Characterisation of `assign_santee` when it succeeds: the chosen index
points at a pool member not excluded by `self`, and `santee` records that
member's name. -/
theorem assign_santee_some {self : SecretSanta} {pool : List SecretSanta} {r : Nat}
    {self' : SecretSanta} {i : Nat} (h : self.assign_santee pool r = (self', some i)) :
    ∃ c, pool[i]? = some c ∧ ¬ c.name ∈ self.invalid_matches ∧
      self' = { self with santee := some c.name } := by
  unfold SecretSanta.assign_santee at h
  rcases hc : candidate_list self pool with _ | ⟨c, cs⟩
  · rw [hc] at h; simp at h
  · rw [hc] at h
    simp only [Prod.mk.injEq, Option.some.injEq] at h
    obtain ⟨h1, h2⟩ := h
    set chosen := (c :: cs).get ⟨r % (c :: cs).length, Nat.mod_lt r (Nat.succ_pos cs.length)⟩
      with hch
    have hmem : chosen ∈ c :: cs := List.get_mem _ _ _
    rw [← hc] at hmem
    have hcand := mem_candidate_list
      (show (chosen.1, chosen.2) ∈ candidate_list self pool from hmem)
    exact ⟨chosen.2, h2 ▸ hcand.1, hcand.2, h1.symm⟩

/-- The assignment loop only ever rewrites the `santee` field: every
participant keeps its name, email and exclusion list, whatever the
outcome. -/
theorem assign_santees_go_core :
    ∀ (rest : List SecretSanta) (rs : Nat → Nat) (k : Nat)
      (pool out pool' : List SecretSanta) (k' : Nat) (e : Option PyException),
      assign_santees_go rs k pool rest = (out, pool', k', e) →
      List.Forall₂ same_core rest out := by
  intro rest
  induction rest with
  | nil =>
    intro rs k pool out pool' k' e h
    simp only [assign_santees_go, Prod.mk.injEq] at h
    rw [← h.1]
    exact List.Forall₂.nil
  | cons santa rest ih =>
    intro rs k pool out pool' k' e h
    simp only [assign_santees_go] at h
    rcases ha : santa.assign_santee pool (rs k) with ⟨santa', io⟩
    rw [ha] at h
    cases io with
    | none =>
      simp only [Prod.mk.injEq] at h
      obtain ⟨-, hs⟩ := assign_santee_none ha
      rw [← h.1, hs]
      exact List.Forall₂.cons ⟨rfl, rfl, rfl⟩ (forall₂_same_core_refl rest)
    | some i =>
      simp only [Prod.mk.injEq] at h
      obtain ⟨c, -, -, hs⟩ := assign_santee_some ha
      rcases ht : assign_santees_go rs (k + 1) (pool.eraseIdx i) rest with ⟨o2, p2, k2, e2⟩
      rw [ht] at h
      rw [← h.1, hs]
      exact List.Forall₂.cons ⟨rfl, rfl, rfl⟩ (ih _ _ _ _ _ _ _ ht)

/-- Soundness of a successful pass of the assignment loop: every processed
participant receives some recipient name, that name avoids the
participant's exclusion list, and the received names together with the
leftover pool are a permutation of the initial pool's names. -/
theorem assign_santees_go_ok :
    ∀ (rest : List SecretSanta) (rs : Nat → Nat) (k : Nat)
      (pool out pool' : List SecretSanta) (k' : Nat),
      assign_santees_go rs k pool rest = (out, pool', k', none) →
      ∃ ns : List String,
        out.map SecretSanta.santee = ns.map some ∧
        List.Forall₂ (fun s n => ¬ n ∈ s.invalid_matches) rest ns ∧
        (ns ++ pool'.map SecretSanta.name).Perm (pool.map SecretSanta.name) := by
  intro rest
  induction rest with
  | nil =>
    intro rs k pool out pool' k' h
    simp only [assign_santees_go, Prod.mk.injEq] at h
    refine ⟨[], ?_, ?_, ?_⟩
    · rw [← h.1]; rfl
    · exact List.Forall₂.nil
    · rw [← h.2.1]; simp
  | cons santa rest ih =>
    intro rs k pool out pool' k' h
    simp only [assign_santees_go] at h
    rcases ha : santa.assign_santee pool (rs k) with ⟨santa', io⟩
    rw [ha] at h
    cases io with
    | none => simp at h
    | some i =>
      simp only [Prod.mk.injEq] at h
      rcases ht : assign_santees_go rs (k + 1) (pool.eraseIdx i) rest with ⟨o2, p2, k2, e2⟩
      rw [ht] at h
      obtain ⟨ho, hp, hk, he⟩ := h
      obtain ⟨c, hpool, hninv, hs⟩ := assign_santee_some ha
      subst he
      obtain ⟨ns2, hmap2, hfa2, hperm2⟩ := ih _ _ _ _ _ _ ht
      refine ⟨c.name :: ns2, ?_, ?_, ?_⟩
      · rw [← ho, hs]
        simpa using hmap2
      · exact List.Forall₂.cons hninv hfa2
      · have hcons : (pool.map SecretSanta.name).Perm
            (c.name :: (pool.eraseIdx i).map SecretSanta.name) := by
          simpa using (perm_cons_eraseIdx pool i hpool).map SecretSanta.name
        rw [← hp]
        exact ((hperm2.cons c.name).trans hcons.symm)

/-- `assign_santees_once` only rewrites `santee` fields. -/
theorem assign_santees_once_core {rs : Nat → Nat} {k : Nat}
    {santas out : List SecretSanta} {k' : Nat} {e : Option PyException}
    (h : assign_santees_once rs k santas = (out, k', e)) :
    List.Forall₂ same_core santas out := by
  unfold assign_santees_once at h
  rcases ht : assign_santees_go rs k santas santas with ⟨o, p, k2, e2⟩
  rw [ht] at h
  simp only [Prod.mk.injEq] at h
  rw [← h.1]
  exact assign_santees_go_core _ _ _ _ _ _ _ _ ht

/-- Soundness of a successful call of the undecorated `assign_santees`:
every participant gets a recipient name outside its exclusion list, and the
recipient names are a permutation of the participants' names. -/
theorem assign_santees_once_ok {rs : Nat → Nat} {k : Nat}
    {santas out : List SecretSanta} {k' : Nat}
    (h : assign_santees_once rs k santas = (out, k', none)) :
    ∃ ns : List String,
      out.map SecretSanta.santee = ns.map some ∧
      List.Forall₂ (fun s n => ¬ n ∈ s.invalid_matches) santas ns ∧
      ns.Perm (santas.map SecretSanta.name) := by
  unfold assign_santees_once at h
  rcases ht : assign_santees_go rs k santas santas with ⟨o, p, k2, e2⟩
  rw [ht] at h
  simp only [Prod.mk.injEq] at h
  obtain ⟨ho, hk, he⟩ := h
  subst he
  obtain ⟨ns, hmap, hfa, hperm⟩ := assign_santees_go_ok _ _ _ _ _ _ _ ht
  have hlen1 : ns.length = o.length := by
    have := congrArg List.length hmap
    simpa using this.symm
  have hlen2 : santas.length = ns.length := hfa.length_eq
  have hlen3 : ns.length + (p.map SecretSanta.name).length = santas.length := by
    have := hperm.length_eq
    simpa using this
  have hpnil : p.map SecretSanta.name = [] := by
    have : (p.map SecretSanta.name).length = 0 := by omega
    exact List.length_eq_zero.mp this
  rw [hpnil] at hperm
  exact ⟨ns, ho ▸ hmap, hfa, by simpa using hperm⟩

/-- The retry loop only ever rewrites `santee` fields of the participants,
whatever the outcome. -/
theorem assign_santees_loop_core :
    ∀ (n : Nat) (rs : Nat → Nat) (k : Nat) (santas : List SecretSanta)
      (last : Option PyException),
      List.Forall₂ same_core santas (assign_santees_loop rs n k santas last).santas := by
  intro n
  induction n with
  | zero =>
    intro rs k santas last
    exact forall₂_same_core_refl santas
  | succ n ih =>
    intro rs k santas last
    simp only [assign_santees_loop]
    rcases ho : assign_santees_once rs k santas with ⟨santas', k', eo⟩
    cases eo with
    | none => simpa using assign_santees_once_core ho
    | some e =>
      exact forall₂_same_core_trans (assign_santees_once_core ho) (ih rs k' santas' (some e))

/-- A successful engine run is exactly a successful call of the wrapped
function, started from a participant state that differs from the input only
in `santee` fields. -/
theorem assign_santees_loop_ok :
    ∀ (n : Nat) (rs : Nat → Nat) (k : Nat) (santas : List SecretSanta)
      (last : Option PyException) (res : EngineResult),
      assign_santees_loop rs n k santas last = res → res.outcome = .ok →
      ∃ (santas₀ : List SecretSanta) (k₀ : Nat),
        List.Forall₂ same_core santas santas₀ ∧
        assign_santees_once rs k₀ santas₀ = (res.santas, res.k, none) := by
  intro n
  induction n with
  | zero =>
    intro rs k santas last res h hok
    rw [← h] at hok
    simp [assign_santees_loop] at hok
  | succ n ih =>
    intro rs k santas last res h hok
    simp only [assign_santees_loop] at h
    rcases ho : assign_santees_once rs k santas with ⟨santas', k', eo⟩
    rw [ho] at h
    cases eo with
    | none =>
      refine ⟨santas, k, forall₂_same_core_refl santas, ?_⟩
      rw [← h]
      exact ho
    | some e =>
      simp only at h
      rcases hr : assign_santees_loop rs n k' santas' (some e) with ⟨s2, a2, k2, t2, o2⟩
      rw [hr] at h
      have hok' : o2 = Outcome.ok := by
        rw [← h] at hok
        simpa using hok
      obtain ⟨santas₀, k₀, hcore, honce⟩ := ih rs k' santas' (some e) _ hr (by simp [hok'])
      refine ⟨santas₀, k₀, forall₂_same_core_trans (assign_santees_once_core ho) hcore, ?_⟩
      rw [← h]
      simpa using honce

/-- When the engine run raises, it has made exactly `n` calls, the trace
holds one exception per call, and (for `n ≥ 1`) the raised exception is the
last attempt's dead-end exception. -/
theorem assign_santees_loop_raised :
    ∀ (n : Nat) (rs : Nat → Nat) (k : Nat) (santas : List SecretSanta)
      (last : Option PyException) (res : EngineResult) (e : PyException),
      assign_santees_loop rs n k santas last = res → res.outcome = .raised e →
      res.attempts = n ∧ res.trace.length = n ∧
      (res.trace.getLast? = some e ∨
        (res.trace = [] ∧ (last = some e ∨ (last = none ∧ e = .nameError)))) := by
  intro n
  induction n with
  | zero =>
    intro rs k santas last res e h hr
    subst h
    refine ⟨rfl, rfl, Or.inr ⟨rfl, ?_⟩⟩
    cases last with
    | none =>
      have h2 : Outcome.raised PyException.nameError = Outcome.raised e := hr
      injection h2 with h3
      exact Or.inr ⟨rfl, h3.symm⟩
    | some e1 =>
      have h2 : Outcome.raised e1 = Outcome.raised e := hr
      injection h2 with h3
      exact Or.inl (by rw [h3])
  | succ n ih =>
    intro rs k santas last res e h hr
    simp only [assign_santees_loop] at h
    rcases ho : assign_santees_once rs k santas with ⟨santas', k', eo⟩
    rw [ho] at h
    cases eo with
    | none =>
      rw [← h] at hr
      simp at hr
    | some e1 =>
      simp only at h
      rcases hl : assign_santees_loop rs n k' santas' (some e1) with ⟨s2, a2, k2, t2, o2⟩
      rw [hl] at h
      have hr2 : o2 = Outcome.raised e := by
        rw [← h] at hr
        simpa using hr
      obtain ⟨ha2, ht2, hlast2⟩ := ih rs k' santas' (some e1) _ e hl (by simp [hr2])
      simp only at ha2 ht2 hlast2
      rw [← h]
      refine ⟨by simp [ha2], by simp [ht2], Or.inl ?_⟩
      rcases hlast2 with hgl | ⟨hnil, hca⟩
      · rcases hT : t2 with _ | ⟨x, xs⟩
        · rw [hT] at hgl; simp at hgl
        · rw [hT] at hgl
          simpa [List.getLast?_cons_cons] using hgl
      · rcases hca with hsome | ⟨hnone, -⟩
        · obtain he1 : e1 = e := by simpa using hsome
          simp [hnil, he1]
        · simp at hnone

theorem map_name_of_core {s t : List SecretSanta} (h : List.Forall₂ same_core s t) :
    t.map SecretSanta.name = s.map SecretSanta.name := by
  induction h with
  | nil => rfl
  | cons hab hl ih => simpa [ih] using hab.1

theorem zip_cond_of_core {s t : List SecretSanta} (h : List.Forall₂ same_core s t) :
    ∀ perm : List String,
      (∀ p ∈ t.zip perm, ¬ p.2 ∈ p.1.invalid_matches) ↔
      (∀ p ∈ s.zip perm, ¬ p.2 ∈ p.1.invalid_matches) := by
  induction h with
  | nil => intro perm; simp
  | cons hab hl ih =>
    intro perm
    cases perm with
    | nil => simp
    | cons n perm =>
      simp only [List.zip_cons_cons, List.mem_cons, forall_eq_or_imp]
      rw [ih perm, hab.2.2]

/-- Feasibility only depends on names and exclusion lists, so it is
preserved when only `santee` fields differ. -/
theorem feasible_iff_of_core {s t : List SecretSanta} (h : List.Forall₂ same_core s t) :
    Feasible t ↔ Feasible s := by
  unfold Feasible
  rw [map_name_of_core h]
  constructor
  · rintro ⟨perm, hperm, hcond⟩
    exact ⟨perm, hperm, (zip_cond_of_core h perm).mp hcond⟩
  · rintro ⟨perm, hperm, hcond⟩
    exact ⟨perm, hperm, (zip_cond_of_core h perm).mpr hcond⟩

/-- A successful call of the wrapped function witnesses feasibility of its
input. -/
theorem feasible_of_once_ok {rs : Nat → Nat} {k : Nat}
    {santas out : List SecretSanta} {k' : Nat}
    (h : assign_santees_once rs k santas = (out, k', none)) : Feasible santas := by
  obtain ⟨ns, -, hfa, hperm⟩ := assign_santees_once_ok h
  refine ⟨ns, List.mem_permutations'.mpr hperm, ?_⟩
  intro p hp
  obtain ⟨-, hz⟩ := List.forall₂_iff_zip.mp hfa
  exact hz hp

/-- On an infeasible participant list, every call of the wrapped function
fails, so the retry loop makes exactly `n` calls and ends by raising. -/
theorem assign_santees_loop_infeasible :
    ∀ (n : Nat) (rs : Nat → Nat) (k : Nat) (santas : List SecretSanta)
      (last : Option PyException), ¬ Feasible santas →
      (assign_santees_loop rs n k santas last).attempts = n ∧
      ∃ e, (assign_santees_loop rs n k santas last).outcome = .raised e := by
  intro n
  induction n with
  | zero =>
    intro rs k santas last hnf
    exact ⟨rfl, _, rfl⟩
  | succ n ih =>
    intro rs k santas last hnf
    simp only [assign_santees_loop]
    rcases ho : assign_santees_once rs k santas with ⟨santas', k', eo⟩
    cases eo with
    | none => exact absurd (feasible_of_once_ok ho) hnf
    | some e =>
      have hnf' : ¬ Feasible santas' := fun hf =>
        hnf ((feasible_iff_of_core (assign_santees_once_core ho)).mp hf)
      obtain ⟨ha, e2, he2⟩ := ih rs k' santas' (some e) hnf'
      exact ⟨by simp [ha], e2, by simpa using he2⟩

/-- Combine the pieces of a successful run into one positional
correspondence between input participants and output participants. -/
theorem forall₂_success_combine :
    ∀ {santas out : List SecretSanta} {ns : List String},
      List.Forall₂ same_core santas out →
      out.map SecretSanta.santee = ns.map some →
      List.Forall₂ (fun s n => ¬ n ∈ s.invalid_matches) santas ns →
      List.Forall₂ (fun s t => t.name = s.name ∧ t.email = s.email ∧
        t.invalid_matches = s.invalid_matches ∧
        ∃ n, t.santee = some n ∧ ¬ n ∈ s.invalid_matches) santas out := by
  intro santas out ns hcore
  induction hcore generalizing ns with
  | nil => intro _ _; exact List.Forall₂.nil
  | cons hab hl ih =>
    intro hmap hfa
    cases ns with
    | nil => simp at hmap
    | cons n ns =>
      simp only [List.map_cons, List.cons.injEq] at hmap
      cases hfa with
      | cons hn hfa =>
        exact List.Forall₂.cons
          ⟨hab.1, hab.2.1, hab.2.2, n, hmap.1, hn⟩ (ih hmap.2 hfa)

theorem filterMap_santee_eq :
    ∀ {out : List SecretSanta} {ns : List String},
      out.map SecretSanta.santee = ns.map some →
      out.filterMap SecretSanta.santee = ns := by
  intro out
  induction out with
  | nil => intro ns h; cases ns <;> simp_all
  | cons t out ih =>
    intro ns h
    cases ns with
    | nil => simp at h
    | cons n ns =>
      simp only [List.map_cons, List.cons.injEq] at h
      simp [List.filterMap_cons, h.1, ih h.2]

theorem no_self_assign_of_forall₂ :
    ∀ {santas out : List SecretSanta},
      List.Forall₂ (fun s t => t.name = s.name ∧ t.email = s.email ∧
        t.invalid_matches = s.invalid_matches ∧
        ∃ n, t.santee = some n ∧ ¬ n ∈ s.invalid_matches) santas out →
      ∀ t ∈ out, t.name ∈ t.invalid_matches → ¬ t.santee = some t.name := by
  intro santas out h
  induction h with
  | nil => simp
  | cons hab hl ih =>
    intro t ht hmem hself
    rcases List.mem_cons.mp ht with rfl | ht'
    · obtain ⟨-, -, hinv, n, hsant, hn⟩ := hab
      rw [hsant] at hself
      obtain rfl : n = t.name := by simpa using hself
      rw [hinv] at hmem
      exact hn hmem
    · exact ih t ht' hmem hself

/-- A random source that always draws 0 (always the first candidate). -/
def rs_zero : Nat → Nat := fun _ => 0

/-- A random source whose i-th draw is i. -/
def rs_id : Nat → Nat := fun k => k

def alice_plain : SecretSanta := SecretSanta.init "Alice" "alice@example.com" []

def bob_plain : SecretSanta := SecretSanta.init "Bob" "bob@example.com" []

def carol_plain : SecretSanta := SecretSanta.init "Carol" "carol@example.com" []

def alice_xbob : SecretSanta := SecretSanta.init "Alice" "alice@example.com" ["Bob"]

def bob_xalice : SecretSanta := SecretSanta.init "Bob" "bob@example.com" ["Alice"]

/-- Three participants with no exclusions beyond self. -/
def santas_plain : List SecretSanta := [alice_plain, bob_plain, carol_plain]

/-- Two participants who mutually exclude each other: no valid assignment
exists. -/
def santas_mutual : List SecretSanta := [alice_xbob, bob_xalice]

/-- Bob excludes Alice but not conversely: Alice always takes Bob, leaving
Bob stuck, so every attempt fails after mutating Alice. -/
def santas_oneway : List SecretSanta := [alice_plain, bob_xalice]

/-- Bob excludes Alice but Alice does not exclude Bob; with a third
participant a successful assignment exists that gives Alice → Bob. -/
def santas_asym : List SecretSanta := [alice_plain, bob_xalice, carol_plain]

theorem forall₂_avoid_of_core :
    ∀ {s t : List SecretSanta} {ns : List String},
      List.Forall₂ same_core s t →
      List.Forall₂ (fun x n => ¬ n ∈ x.invalid_matches) t ns →
      List.Forall₂ (fun x n => ¬ n ∈ x.invalid_matches) s ns := by
  intro s t ns hc
  induction hc generalizing ns with
  | nil => intro h; cases h; exact List.Forall₂.nil
  | cons hab hl ih =>
    intro h
    cases h with
    | cons hn hfa =>
      exact List.Forall₂.cons (fun hmem => hn (hab.2.2 ▸ hmem)) (ih hfa)

/-- Full specification of a successful engine run, relative to the input
participants: positionally, each output participant keeps the input's name,
email and exclusions and holds some recipient name avoiding the input's
exclusions; the recipient names are a permutation of the participant names;
and nobody whose own name is excluded is self-assigned. -/
theorem engine_ok_spec (rs : Nat → Nat) (santas : List SecretSanta)
    (res : EngineResult) (hrun : assign_santees rs santas = res)
    (hok : res.outcome = .ok) :
    List.Forall₂ (fun s t => t.name = s.name ∧ t.email = s.email ∧
        t.invalid_matches = s.invalid_matches ∧
        ∃ n, t.santee = some n ∧ ¬ n ∈ s.invalid_matches) santas res.santas ∧
    (res.santas.filterMap SecretSanta.santee).Perm (santas.map SecretSanta.name) ∧
    (∀ t ∈ res.santas, t.name ∈ t.invalid_matches → ¬ t.santee = some t.name) := by
  obtain ⟨santas₀, k₀, hcore, honce⟩ :=
    assign_santees_loop_ok 100 rs 0 santas none res hrun hok
  obtain ⟨ns, hmap, hfa, hperm⟩ := assign_santees_once_ok honce
  have hfa' : List.Forall₂ (fun s n => ¬ n ∈ s.invalid_matches) santas ns :=
    forall₂_avoid_of_core hcore hfa
  have hcore2 : List.Forall₂ same_core santas res.santas :=
    forall₂_same_core_trans hcore (assign_santees_once_core honce)
  have hbig := forall₂_success_combine hcore2 hmap hfa'
  refine ⟨hbig, ?_, no_self_assign_of_forall₂ hbig⟩
  rw [filterMap_santee_eq hmap]
  exact hperm.trans (by rw [map_name_of_core hcore])

/-- C1: after a successful run of the assignment engine, every participant
has exactly one recipient, the recipients' names are a permutation of the
participants' names, the recipient's name is never in the giver's exclusion
list, and in particular nobody whose exclusions contain their own name (as
the constructor guarantees) is self-assigned. -/
theorem assign_santees_success_bijection (rs : Nat → Nat) (santas : List SecretSanta)
    (res : EngineResult) (hrun : assign_santees rs santas = res)
    (hok : res.outcome = .ok) :
    List.Forall₂ (fun s t => t.name = s.name ∧ t.email = s.email ∧
        t.invalid_matches = s.invalid_matches ∧
        ∃ n, t.santee = some n ∧ ¬ n ∈ s.invalid_matches) santas res.santas ∧
    (res.santas.filterMap SecretSanta.santee).Perm (santas.map SecretSanta.name) ∧
    (∀ t ∈ res.santas, t.name ∈ t.invalid_matches → ¬ t.santee = some t.name) :=
  engine_ok_spec rs santas res hrun hok

/-- Witness for C1 at a concrete successful run. -/
theorem assign_santees_success_bijection_witness :
    (assign_santees rs_id santas_plain).outcome = .ok ∧
    ((assign_santees rs_id santas_plain).santas.filterMap SecretSanta.santee).Perm
      (santas_plain.map SecretSanta.name) :=
  ⟨by decide,
   (assign_santees_success_bijection rs_id santas_plain _ rfl (by decide)).2.1⟩

/-- C2 counterexample: on `santas_oneway` the first attempt fails after
assigning Bob to Alice, and that mutation is still on the participants both
when the next attempt starts (the attempt's output state) and after the
engine finally fails — it is never discarded. -/
theorem failed_attempt_state_counterexample :
    (assign_santees_once rs_zero 0 santas_oneway).2.2.isSome = true ∧
    (assign_santees_once rs_zero 0 santas_oneway).1.map SecretSanta.santee
      = [some "Bob", none] ∧
    (assign_santees rs_zero santas_oneway).outcome =
      .raised (.secretSantaException "Could not find santee for Bob") ∧
    (assign_santees rs_zero santas_oneway).santas.map SecretSanta.santee
      = [some "Bob", none] := by decide

/-- C2 amended: each attempt rebuilds its candidate pool afresh from the
current participant list (a deep copy), so pool consumption does not leak
across attempts, but `santee` mutations made by a failed attempt are NOT
discarded: the retry runs the next attempt directly on the mutated
participant state left by the failed one. -/
theorem retry_keeps_mutated_state (rs : Nat → Nat) (n k : Nat)
    (santas s2 : List SecretSanta) (k2 : Nat) (e : PyException)
    (last : Option PyException)
    (h : assign_santees_once rs k santas = (s2, k2, some e)) :
    assign_santees_loop rs (n + 1) k santas last =
      { assign_santees_loop rs n k2 s2 (some e) with
        attempts := (assign_santees_loop rs n k2 s2 (some e)).attempts + 1,
        trace := e :: (assign_santees_loop rs n k2 s2 (some e)).trace } := by
  simp only [assign_santees_loop]
  rw [h]

/-- Witness for the amended C2: with one-way exclusions the failed first
attempt hands its mutated state (Alice already assigned Bob) to the second
attempt. -/
theorem retry_keeps_mutated_state_witness :
    assign_santees_loop rs_zero 2 0 santas_oneway none =
      { assign_santees_loop rs_zero 1 1
          [{ alice_plain with santee := some "Bob" }, bob_xalice]
          (some (.secretSantaException "Could not find santee for Bob")) with
        attempts := (assign_santees_loop rs_zero 1 1
          [{ alice_plain with santee := some "Bob" }, bob_xalice]
          (some (.secretSantaException "Could not find santee for Bob"))).attempts + 1,
        trace := .secretSantaException "Could not find santee for Bob" ::
          (assign_santees_loop rs_zero 1 1
            [{ alice_plain with santee := some "Bob" }, bob_xalice]
            (some (.secretSantaException "Could not find santee for Bob"))).trace } :=
  retry_keeps_mutated_state rs_zero 1 0 santas_oneway
    [{ alice_plain with santee := some "Bob" }, bob_xalice] 1
    (.secretSantaException "Could not find santee for Bob") none (by decide)

/-- C3 counterexample: on mutually-excluding participants the engine's final
error is literally the per-attempt dead-end exception
(`SecretSantaException('Could not find santee for Alice')`) — the same
error kind, naming the stuck participant and carrying no try count. -/
theorem exhaustion_error_counterexample :
    (assign_santees rs_zero santas_mutual).outcome =
      .raised (.secretSantaException "Could not find santee for Alice") ∧
    (assign_santees_once rs_zero 0 santas_mutual).2.2 =
      some (.secretSantaException "Could not find santee for Alice") := by decide

/-- C3 amended: when the engine fails permanently, it has made exactly the
configured 100 calls and the surfaced exception is the dead-end exception
raised by the last attempt (`raise ex` re-raises it), not a distinct
exhaustion error: it names the stuck participant and carries no try
count. -/
theorem exhaustion_reraises_last_dead_end (rs : Nat → Nat)
    (santas : List SecretSanta) (res : EngineResult) (e : PyException)
    (hrun : assign_santees rs santas = res) (hraised : res.outcome = .raised e) :
    res.attempts = 100 ∧ res.trace.length = 100 ∧ res.trace.getLast? = some e := by
  obtain ⟨ha, hl, hd⟩ :=
    assign_santees_loop_raised 100 rs 0 santas none res e hrun hraised
  refine ⟨ha, hl, ?_⟩
  rcases hd with h | ⟨hnil, -⟩
  · exact h
  · rw [hnil] at hl
    simp at hl

/-- Witness for the amended C3 on the mutually-excluding pair. -/
theorem exhaustion_reraises_last_dead_end_witness :
    (assign_santees rs_zero santas_mutual).outcome =
      .raised (.secretSantaException "Could not find santee for Alice") ∧
    ((assign_santees rs_zero santas_mutual).attempts = 100 ∧
      (assign_santees rs_zero santas_mutual).trace.length = 100 ∧
      (assign_santees rs_zero santas_mutual).trace.getLast? =
        some (.secretSantaException "Could not find santee for Alice")) :=
  ⟨by decide,
   exhaustion_reraises_last_dead_end rs_zero santas_mutual _
     (.secretSantaException "Could not find santee for Alice") rfl (by decide)⟩

/-- C4: on any participant list whose exclusions admit no valid assignment,
every attempt fails, so the engine terminates after exactly the configured
100 calls and raises an error; it cannot hang (the retry loop is bounded by
construction). -/
theorem infeasible_exhausts_all_tries (rs : Nat → Nat) (santas : List SecretSanta)
    (hnf : ¬ Feasible santas) :
    (assign_santees rs santas).attempts = 100 ∧
    ∃ e, (assign_santees rs santas).outcome = .raised e :=
  assign_santees_loop_infeasible 100 rs 0 santas none hnf

/-- Witness for C4: the 2-participant mutual-exclusion configuration is
infeasible and the engine stops after exactly 100 tries with an error. -/
theorem infeasible_exhausts_all_tries_witness :
    ¬ Feasible santas_mutual ∧
    ((assign_santees rs_zero santas_mutual).attempts = 100 ∧
      ∃ e, (assign_santees rs_zero santas_mutual).outcome = .raised e) :=
  ⟨by decide, infeasible_exhausts_all_tries rs_zero santas_mutual (by decide)⟩

/-- C5: (i) when a participant's candidate list is empty the attempt fails
immediately with a `SecretSantaException` naming that participant, leaving
the later participants unprocessed; (ii) while at least one try remains,
the dead-end only makes the retry loop run the remaining attempts — the
loop's outcome is the outcome of those remaining attempts, with one more
call counted, so the dead-end itself is not surfaced to the caller. -/
theorem dead_end_immediate_and_contained :
    (∀ (rs : Nat → Nat) (k : Nat) (pool : List SecretSanta) (santa : SecretSanta)
        (rest : List SecretSanta), candidate_list santa pool = [] →
      assign_santees_go rs k pool (santa :: rest) =
        ({ santa with santee := none } :: rest, pool, k,
          some (.secretSantaException ("Could not find santee for " ++ santa.name)))) ∧
    (∀ (rs : Nat → Nat) (k : Nat) (santas s2 : List SecretSanta) (k2 : Nat)
        (e : PyException) (last : Option PyException) (n : Nat), 1 ≤ n →
      assign_santees_once rs k santas = (s2, k2, some e) →
      (assign_santees_loop rs (n + 1) k santas last).outcome =
        (assign_santees_loop rs n k2 s2 (some e)).outcome ∧
      (assign_santees_loop rs (n + 1) k santas last).attempts =
        (assign_santees_loop rs n k2 s2 (some e)).attempts + 1) := by
  constructor
  · intro rs k pool santa rest hc
    have ha : santa.assign_santee pool (rs k) = ({ santa with santee := none }, none) := by
      unfold SecretSanta.assign_santee
      rw [hc]
    simp only [assign_santees_go]
    rw [ha]
  · intro rs k santas s2 k2 e last n hn h
    simp only [assign_santees_loop]
    rw [h]
    exact ⟨rfl, rfl⟩

/-- Witness for C5 at concrete inputs: Bob has no candidate in a pool
holding only Alice (whom he excludes), and a 2-try run on the one-way
configuration defers to the 1-try run on the mutated state. -/
theorem dead_end_immediate_and_contained_witness :
    assign_santees_go rs_zero 0 [alice_plain] [bob_xalice] =
      ([{ bob_xalice with santee := none }], [alice_plain], 0,
        some (.secretSantaException ("Could not find santee for " ++ bob_xalice.name))) ∧
    (assign_santees_loop rs_zero 2 0 santas_oneway none).outcome =
      (assign_santees_loop rs_zero 1 1
        [{ alice_plain with santee := some "Bob" }, bob_xalice]
        (some (.secretSantaException "Could not find santee for Bob"))).outcome :=
  ⟨dead_end_immediate_and_contained.1 rs_zero 0 [alice_plain] bob_xalice [] (by decide),
   (dead_end_immediate_and_contained.2 rs_zero 0 santas_oneway
     [{ alice_plain with santee := some "Bob" }, bob_xalice] 1
     (.secretSantaException "Could not find santee for Bob") none 1
     (by decide) (by decide)).1⟩

theorem mem_invalid_matches_for {pair A B : String} {dont_pair : List String}
    (hpair : pair ∈ dont_pair) (hA : A ∈ parse_pair_names pair)
    (hB : B ∈ parse_pair_names pair) :
    B ∈ invalid_matches_for A dont_pair := by
  unfold invalid_matches_for
  refine List.mem_flatten.mpr ⟨parse_pair_names pair, ?_, hB⟩
  refine List.mem_map.mpr ⟨pair, hpair, ?_⟩
  simp [hA]

/-- C6: whenever two names occur in the same `DONT_PAIR` group, each
constructed participant bearing one of the names carries the other in its
exclusion list — symmetry holds even though the pairing is written once. -/
theorem dont_pair_symmetric (participants : List (String × String))
    (dont_pair : List String) (pair A B : String) (hpair : pair ∈ dont_pair)
    (hA : A ∈ parse_pair_names pair) (hB : B ∈ parse_pair_names pair) :
    ∀ s ∈ create_santas participants dont_pair,
      (s.name = A → B ∈ s.invalid_matches) ∧ (s.name = B → A ∈ s.invalid_matches) := by
  intro s hs
  obtain ⟨p, hp, rfl⟩ := List.mem_map.mp hs
  constructor
  · intro hname
    have hname' : p.1 = A := hname
    have hmem : B ∈ invalid_matches_for p.1 dont_pair := by
      rw [hname']
      exact mem_invalid_matches_for hpair hA hB
    exact List.mem_append_left _ hmem
  · intro hname
    have hname' : p.1 = B := hname
    have hmem : A ∈ invalid_matches_for p.1 dont_pair := by
      rw [hname']
      exact mem_invalid_matches_for hpair hB hA
    exact List.mem_append_left _ hmem

/-- Witness for C6 with the group declared once as `"Alice, Bob"`. -/
theorem dont_pair_symmetric_witness :
    "Bob" ∈ (SecretSanta.init "Alice" "alice@example.com"
      (invalid_matches_for "Alice" ["Alice, Bob"])).invalid_matches ∧
    "Alice" ∈ (SecretSanta.init "Bob" "bob@example.com"
      (invalid_matches_for "Bob" ["Alice, Bob"])).invalid_matches :=
  ⟨(dont_pair_symmetric
      [("Alice", "alice@example.com"), ("Bob", "bob@example.com")] ["Alice, Bob"]
      "Alice, Bob" "Alice" "Bob" (by decide) (by decide) (by decide)
      (SecretSanta.init "Alice" "alice@example.com"
        (invalid_matches_for "Alice" ["Alice, Bob"])) (by decide)).1 rfl,
   (dont_pair_symmetric
      [("Alice", "alice@example.com"), ("Bob", "bob@example.com")] ["Alice, Bob"]
      "Alice, Bob" "Alice" "Bob" (by decide) (by decide) (by decide)
      (SecretSanta.init "Bob" "bob@example.com"
        (invalid_matches_for "Bob" ["Alice, Bob"])) (by decide)).2 rfl⟩

/-- C7: the constructor always puts the participant's own name into its
exclusion list, and the engine (the only code that touches participants
afterwards) never changes a participant's name or exclusion list, so the
invariant persists through every subsequent operation. -/
theorem own_name_always_excluded :
    (∀ (name email : String) (invalid : List String),
      name ∈ (SecretSanta.init name email invalid).invalid_matches) ∧
    (∀ (rs : Nat → Nat) (santas : List SecretSanta),
      List.Forall₂ (fun s t => t.name = s.name ∧ t.invalid_matches = s.invalid_matches)
        santas (assign_santees rs santas).santas) := by
  constructor
  · intro name email invalid
    simp [SecretSanta.init]
  · intro rs santas
    exact (assign_santees_loop_core 100 rs 0 santas none).imp fun a b h => ⟨h.1, h.2.2⟩

/-- Witness for C7 at a concrete constructor call and a concrete engine
run. -/
theorem own_name_always_excluded_witness :
    "Alice" ∈ (SecretSanta.init "Alice" "alice@example.com" []).invalid_matches ∧
    List.Forall₂ (fun s t => t.name = s.name ∧ t.invalid_matches = s.invalid_matches)
      santas_plain (assign_santees rs_id santas_plain).santas :=
  ⟨own_name_always_excluded.1 "Alice" "alice@example.com" [],
   own_name_always_excluded.2 rs_id santas_plain⟩

/-- C8: the engine is a pure function of the random source and the input
participants — two runs with the same seeded random source and the same
input produce the same attempt trace and the same final result. -/
theorem engine_deterministic (rs1 rs2 : Nat → Nat)
    (santas1 santas2 : List SecretSanta) (hrs : rs1 = rs2) (hs : santas1 = santas2) :
    assign_santees rs1 santas1 = assign_santees rs2 santas2 := by
  rw [hrs, hs]

/-- Witness for C8: re-running the mutual-exclusion input under the same
source reproduces the result (trace included). -/
theorem engine_deterministic_witness :
    assign_santees rs_zero santas_mutual = assign_santees rs_zero santas_mutual :=
  engine_deterministic rs_zero rs_zero santas_mutual santas_mutual rfl rfl

/-- C9: exclusion enforcement is one-directional.  On every successful run
each giver's recipient name avoids the giver's exclusion list, but the
reverse is unchecked: on `santas_asym` (Bob excludes Alice, Alice does not
exclude Bob) the engine succeeds assigning Alice → Bob even though the
giver's name "Alice" is in recipient Bob's exclusion list. -/
theorem exclusion_one_directional :
    (∀ (rs : Nat → Nat) (santas : List SecretSanta) (res : EngineResult),
      assign_santees rs santas = res → res.outcome = .ok →
      List.Forall₂ (fun s t => ∃ n, t.santee = some n ∧ ¬ n ∈ s.invalid_matches)
        santas res.santas) ∧
    ((assign_santees rs_zero santas_asym).outcome = .ok ∧
      (assign_santees rs_zero santas_asym).santas.map
          (fun s => (s.name, s.santee, s.invalid_matches)) =
        [("Alice", some "Bob", ["Alice"]),
         ("Bob", some "Carol", ["Alice", "Bob"]),
         ("Carol", some "Alice", ["Carol"])] ∧
      "Alice" ∈ ["Alice", "Bob"] ∧ ¬ "Bob" ∈ ["Alice"]) := by
  constructor
  · intro rs santas res hrun hok
    exact (engine_ok_spec rs santas res hrun hok).1.imp fun a b h => h.2.2.2
  · exact ⟨by decide, by decide, by decide, by decide⟩

/-- Witness for the universally quantified half of C9, at the same
concrete run. -/
theorem exclusion_one_directional_witness :
    List.Forall₂ (fun s t => ∃ n, t.santee = some n ∧ ¬ n ∈ s.invalid_matches)
      santas_asym (assign_santees rs_zero santas_asym).santas :=
  exclusion_one_directional.1 rs_zero santas_asym _ rfl (by decide)

/-- Unfolding of one loop iteration on a swallowed (acceptable)
exception. -/
theorem repeat_if_failed_go_step_acc {E β : Type} (acceptable : E → Bool)
    (f : Nat → CallResult E β) (m i : Nat) (last : Option E) (e0 : E)
    (hf : f i = .exn e0) (hacc : acceptable e0 = true) :
    repeat_if_failed_go acceptable f (m + 1) i last =
      ((repeat_if_failed_go acceptable f m (i + 1) (some e0)).1,
        (repeat_if_failed_go acceptable f m (i + 1) (some e0)).2 + 1) := by
  simp only [repeat_if_failed_go]
  rw [hf]
  simp [hacc]

/-- Unfolding of one loop iteration on a non-acceptable exception: it
propagates at once. -/
theorem repeat_if_failed_go_step_exn {E β : Type} (acceptable : E → Bool)
    (f : Nat → CallResult E β) (m i : Nat) (last : Option E) (e : E)
    (hf : f i = .exn e) (hacc : acceptable e = false) :
    repeat_if_failed_go acceptable f (m + 1) i last = (.raised e, 1) := by
  simp only [repeat_if_failed_go]
  rw [hf]
  simp [hacc]

/-- Unfolding of one loop iteration on a normal return: it is returned at
once. -/
theorem repeat_if_failed_go_step_ok {E β : Type} (acceptable : E → Bool)
    (f : Nat → CallResult E β) (m i : Nat) (last : Option E) (b : β)
    (hf : f i = .ok b) :
    repeat_if_failed_go acceptable f (m + 1) i last = (.ok b, 1) := by
  simp only [repeat_if_failed_go]
  rw [hf]

/-- Behaviour of the `repeat_if_failed` loop starting at call index `i`:
if the first `kk` calls raise acceptable exceptions, then the `kk`-th call
decides the run — a non-acceptable exception propagates at once (no further
calls), and a normal return is returned at once (no further calls). -/
theorem repeat_if_failed_go_spec {E β : Type} (acceptable : E → Bool)
    (f : Nat → CallResult E β) :
    ∀ (kk n i : Nat) (last : Option E), kk < n →
      (∀ j, j < kk → ∃ e, f (i + j) = .exn e ∧ acceptable e = true) →
      (∀ e, f (i + kk) = .exn e → acceptable e = false →
        repeat_if_failed_go acceptable f n i last = (.raised e, kk + 1)) ∧
      (∀ b, f (i + kk) = .ok b →
        repeat_if_failed_go acceptable f n i last = (.ok b, kk + 1)) := by
  intro kk
  induction kk with
  | zero =>
    intro n i last hlt hprev
    obtain ⟨m, rfl⟩ : ∃ m, n = m + 1 := ⟨n - 1, by omega⟩
    rw [Nat.add_zero]
    exact ⟨fun e hf hacc => repeat_if_failed_go_step_exn acceptable f m i last e hf hacc,
      fun b hf => repeat_if_failed_go_step_ok acceptable f m i last b hf⟩
  | succ kk ih =>
    intro n i last hlt hprev
    obtain ⟨m, rfl⟩ : ∃ m, n = m + 1 := ⟨n - 1, by omega⟩
    obtain ⟨e0, hf0, hacc0⟩ := hprev 0 (Nat.succ_pos kk)
    rw [Nat.add_zero] at hf0
    have hstep := repeat_if_failed_go_step_acc acceptable f m i last e0 hf0 hacc0
    have hshift : ∀ j, j < kk → ∃ e, f (i + 1 + j) = .exn e ∧ acceptable e = true := by
      intro j hj
      obtain ⟨e, hf, hacc⟩ := hprev (j + 1) (by omega)
      exact ⟨e, by rw [show i + 1 + j = i + (j + 1) by omega]; exact hf, hacc⟩
    have ihm := ih m (i + 1) (some e0) (by omega) hshift
    have hidx : i + 1 + kk = i + (kk + 1) := by omega
    constructor
    · intro e hf hacc
      rw [hstep, ihm.1 e (by rw [hidx]; exact hf) hacc]
    · intro b hf
      rw [hstep, ihm.2 b (by rw [hidx]; exact hf)]

/-- C10: under `repeat_if_failed(tries, exceptions)`, after any run of
acceptable (swallowed) failures, a call that raises an exception outside
the acceptable tuple propagates it to the caller immediately with no
further calls, and a call that returns normally has its result returned
with no further calls. -/
theorem retry_propagation (E β : Type) (tries : Nat) (acceptable : E → Bool)
    (f : Nat → CallResult E β) (kk : Nat) (hlt : kk < tries)
    (hprev : ∀ j, j < kk → ∃ e, f j = .exn e ∧ acceptable e = true) :
    (∀ e, f kk = .exn e → acceptable e = false →
      repeat_if_failed tries acceptable f = (.raised e, kk + 1)) ∧
    (∀ b, f kk = .ok b → repeat_if_failed tries acceptable f = (.ok b, kk + 1)) := by
  have h := repeat_if_failed_go_spec acceptable f kk tries 0 none hlt
    (by simpa using hprev)
  unfold repeat_if_failed
  simpa using h

/-- A wrapped function whose first call raises an acceptable exception and
whose second call raises a non-acceptable one. -/
def call_demo_exn : Nat → CallResult String Nat :=
  fun i => if i = 0 then .exn "soft" else if i = 1 then .exn "hard" else .ok 7

/-- A wrapped function whose first call raises an acceptable exception and
whose second call returns normally. -/
def call_demo_ok : Nat → CallResult String Nat :=
  fun i => if i = 0 then .exn "soft" else .ok 42

/-- Witness for C10: with `"soft"` the only acceptable exception, the
`"hard"` exception of call 1 propagates after exactly 2 calls, and a normal
return on call 1 is returned after exactly 2 calls. -/
theorem retry_propagation_witness :
    repeat_if_failed 5 (fun e => e == "soft") call_demo_exn = (.raised "hard", 2) ∧
    repeat_if_failed 5 (fun e => e == "soft") call_demo_ok = (.ok 42, 2) :=
  ⟨(retry_propagation String Nat 5 (fun e => e == "soft") call_demo_exn 1
      (by decide)
      (fun j hj => ⟨"soft", by
        have hj0 : j = 0 := by omega
        rw [hj0]
        exact ⟨rfl, rfl⟩⟩)).1 "hard" rfl rfl,
   (retry_propagation String Nat 5 (fun e => e == "soft") call_demo_ok 1
      (by decide)
      (fun j hj => ⟨"soft", by
        have hj0 : j = 0 := by omega
        rw [hj0]
        exact ⟨rfl, rfl⟩⟩)).2 42 rfl⟩
